import Mathlib

/-!
Verification of the DNS zone manager (`main_module.py`).

Python strings are modelled as `List Char` (`Str`), Python ints as `Int`
(`Nat` where the source guarantees non-negativity), exceptions as
`Except Str`.  The helper functions below reproduce the exact Python
primitives the source uses: `str.strip`, `str.split()`, `str.upper`,
`str.isdigit`, `int(...)`, `str(...)` and `"sep".join(...)`.
-/

set_option maxRecDepth 4000

abbrev Str := List Char

instance {ε α : Type} [DecidableEq ε] [DecidableEq α] : DecidableEq (Except ε α)
  | .ok a, .ok b => if h : a = b then .isTrue (by rw [h]) else .isFalse (by simp [h])
  | .error a, .error b => if h : a = b then .isTrue (by rw [h]) else .isFalse (by simp [h])
  | .ok _, .error _ => .isFalse (by simp)
  | .error _, .ok _ => .isFalse (by simp)

/-- Python `str.split()` helper: accumulates the current (reversed) token. -/
def splitWsAux : Str → Str → List Str
  | [], acc => if acc = [] then [] else [acc.reverse]
  | c :: cs, acc =>
    if c.isWhitespace then
      (if acc = [] then splitWsAux cs [] else acc.reverse :: splitWsAux cs [])
    else splitWsAux cs (c :: acc)

/-- Python `str.split()` (split on whitespace runs, no empty tokens). -/
def pySplitWs (l : Str) : List Str := splitWsAux l []

/-- Leading-whitespace removal (left part of Python `str.strip`). -/
def lstripWs (l : Str) : Str := l.dropWhile Char.isWhitespace

/-- Trailing-whitespace removal (right part of Python `str.strip`). -/
def rstripWs (l : Str) : Str := (l.reverse.dropWhile Char.isWhitespace).reverse

/-- Python `str.strip()`. -/
def pyStrip (l : Str) : Str := rstripWs (lstripWs l)

/-- Split on a single separator character, keeping empty pieces
(the semantics of Python `str.split(sep)` / file line iteration). -/
def splitOnChar (sep : Char) : Str → List Str
  | [] => [[]]
  | c :: cs =>
    if c = sep then [] :: splitOnChar sep cs
    else
      match splitOnChar sep cs with
      | [] => [[c]]
      | t :: ts => (c :: t) :: ts

/-- Python `sep.join(pieces)`. -/
def joinSepStr (sep : Str) : List Str → Str
  | [] => []
  | [t] => t
  | t :: ts => t ++ sep ++ joinSepStr sep ts

/-- Numeric value of a digit string (used by Python `int` on digit input). -/
def charsToNat (l : Str) : Nat := l.foldl (fun a c => 10 * a + (c.toNat - 48)) 0

/-- Python `str.isdigit()` (ASCII digits). -/
def isDigitStr (l : Str) : Bool := (!l.isEmpty) && l.all Char.isDigit

/-- Decimal rendering of a natural number, fuel-based (`str(n)` in Python). -/
def natToCharsAux : Nat → Nat → Str → Str
  | 0, _, acc => acc
  | fuel + 1, n, acc =>
    let c := Char.ofNat (48 + n % 10)
    if n < 10 then c :: acc else natToCharsAux fuel (n / 10) (c :: acc)

/-- Decimal rendering of a natural number (`str(n)` in Python). -/
def natToChars (n : Nat) : Str := natToCharsAux (n + 1) n []

/-- Decimal rendering of an integer (`str(i)` in Python). -/
def intToChars (i : Int) : Str :=
  if i < 0 then '-' :: natToChars (-i).toNat else natToChars i.toNat

/-- Python `int(s)`: optional sign followed by digits, `ValueError` otherwise. -/
def pyIntChars (l : Str) : Except Str Int :=
  match l with
  | [] => .error ("ValueError".data)
  | c :: rest =>
    if c = '-' then
      (if isDigitStr rest then .ok (-(charsToNat rest : Int)) else .error ("ValueError".data))
    else if c = '+' then
      (if isDigitStr rest then .ok (charsToNat rest : Int) else .error ("ValueError".data))
    else if isDigitStr (c :: rest) then .ok ((charsToNat (c :: rest) : Int))
    else .error ("ValueError".data)

/-- Python `str.upper()` (ASCII case mapping). -/
def upperStr (l : Str) : Str := l.map Char.toUpper

/-- Python `s.rstrip(".")`: remove every trailing dot. -/
def rstripDots (l : Str) : Str := (l.reverse.dropWhile (fun c => c == '.')).reverse

/-! ## Data model (`DnsRecord`, `Zone`) -/

structure DnsRecord where
  record_type : Str
  name : Str
  value : Str
  ttl : Int
  priority : Option Int
  record_id : Option Int
deriving DecidableEq, Repr

instance : Inhabited DnsRecord := ⟨⟨[], [], [], 0, none, none⟩⟩

structure Zone where
  name : Str
  ttl : Int
  serial : Int
  nameservers : List Str
  records : List DnsRecord
  zone_id : Option Int
deriving DecidableEq, Repr

/-- The default `Zone.nameservers` (dataclass `default_factory`). -/
def defaultNameservers : List Str := ["ns1.blackroad.io.".data, "ns2.blackroad.io.".data]

/-! ## Record validation (`VALID_TYPES`, `_VALIDATORS`, `validate_record`) -/

def VALID_TYPES : List Str :=
  ["A".data, "AAAA".data, "CNAME".data, "MX".data, "TXT".data,
   "NS".data, "SOA".data, "SRV".data, "PTR".data, "CAA".data]

/-- One alternative of the A-record regex:
`25[0-5] | 2[0-4]\d | [01]?\d\d?` (an anchored octet). -/
def isOctet : Str → Bool
  | ['2', '5', c] => decide ('0' ≤ c) && decide (c ≤ '5')
  | ['2', c, d] => decide ('0' ≤ c) && decide (c ≤ '4') && d.isDigit
  | [a, b, c] => (a == '0' || a == '1') && b.isDigit && c.isDigit
  | [b, c] => b.isDigit && c.isDigit
  | [b] => b.isDigit
  | _ => false

/-- The `A` validator: four dot-separated octets (the source regex anchors
four copies of the octet alternation joined by literal dots). -/
def matchA (l : Str) : Bool :=
  let ps := splitOnChar '.' l
  (ps.length == 4) && ps.all isOctet

/-- The `AAAA` validator: `^[0-9a-fA-F:]{2,39}$`. -/
def matchAAAA (l : Str) : Bool :=
  decide (2 ≤ l.length) && decide (l.length ≤ 39) &&
    l.all (fun c => c.isDigit || (decide ('a' ≤ c) && decide (c ≤ 'f')) ||
      (decide ('A' ≤ c) && decide (c ≤ 'F')) || c == ':')

/-- The hostname validator `^[a-zA-Z0-9._-]+\.?$` used for CNAME, MX, NS and
PTR.  Since `.` belongs to the character class, the optional trailing dot is
absorbed by the `+`, so the language is exactly the nonempty strings over the
class. -/
def matchHost (l : Str) : Bool :=
  (!l.isEmpty) && l.all (fun c => c.isAlphanum || c == '.' || c == '_' || c == '-')

/-- `_VALIDATORS.get(record_type)`. -/
def validatorFor (t : Str) : Option (Str → Bool) :=
  if t = "A".data then some matchA
  else if t = "AAAA".data then some matchAAAA
  else if t = "CNAME".data then some matchHost
  else if t = "MX".data then some matchHost
  else if t = "NS".data then some matchHost
  else if t = "PTR".data then some matchHost
  else none

/-- `validate_record`: list of validation error strings (empty = valid). -/
def validate_record (record : DnsRecord) : List Str :=
  (if record.record_type ∈ VALID_TYPES then []
   else [("Unknown record type: ".data) ++ record.record_type])
  ++ (if record.name = [] then [("Record name cannot be empty".data)] else [])
  ++ (if record.value = [] then [("Record value cannot be empty".data)] else [])
  ++ (if record.ttl < 0 then
        [("TTL must be non-negative, got ".data) ++ intToChars record.ttl] else [])
  ++ (match validatorFor record.record_type with
      | some v =>
        if v record.value then []
        else [("Value '".data) ++ record.value ++ ("' invalid for type ".data) ++ record.record_type]
      | none => [])
  ++ (if (record.record_type = "MX".data ∨ record.record_type = "SRV".data) ∧
          record.priority = none
      then [record.record_type ++ (" record requires a priority".data)] else [])

/-! ## `add_record`

The Python function mutates `zone.records` only after validation succeeds
and raises `ValueError` otherwise; it is modelled by state passing (the
`conn=None` code path: no database access).  The returned zone is the
caller's zone after the call. -/

def add_record (zone : Zone) (record_type name value : Str) (ttl : Int)
    (priority : Option Int) : Except Str DnsRecord × Zone :=
  let r : DnsRecord :=
    ⟨upperStr record_type, name, value, ttl, priority, none⟩
  let errs := validate_record r
  if errs = [] then
    (.ok r, { zone with records := zone.records ++ [r] })
  else
    (.error (("Invalid record: ".data) ++ joinSepStr ("; ".data) errs), zone)

/-! ## BIND export (`export_bind_format`) -/

/-- Key order used by `other.sort(key=lambda r: (r.record_type, r.name))`:
Python string `<` (code-point lexicographic). -/
def strLtB : Str → Str → Bool
  | [], [] => false
  | [], _ :: _ => true
  | _ :: _, [] => false
  | a :: as_, b :: bs =>
    if a < b then true else if b < a then false else strLtB as_ bs

/-- Python tuple comparison `(a.record_type, a.name) <= (b.record_type, b.name)`. -/
def recLe (a b : DnsRecord) : Prop :=
  strLtB a.record_type b.record_type = true ∨
    (a.record_type = b.record_type ∧
      (strLtB a.name b.name = true ∨ a.name = b.name))

instance : DecidableRel recLe := fun a b => by unfold recLe; infer_instance

/-- `list.sort(key=lambda r: (r.record_type, r.name))` (stable ascending sort). -/
def sortRecords (rs : List DnsRecord) : List DnsRecord := rs.insertionSort recLe

def exportHeaderLines (zone : Zone) : List Str :=
  [("; Zone file for ".data) ++ zone.name,
   "; Generated by blackroad-zone-manager".data,
   ("$ORIGIN ".data) ++ zone.name ++ (".".data),
   ("$TTL ".data) ++ intToChars zone.ttl,
   []]

def renderSoaLine (r : DnsRecord) : Str :=
  r.name ++ (" ".data) ++ intToChars r.ttl ++ (" IN SOA ".data) ++ r.value

def synthSoaLine (zone : Zone) : Str :=
  ("@ ".data) ++ intToChars zone.ttl ++ (" IN SOA ns1.".data) ++ zone.name ++
    (". hostmaster.".data) ++ zone.name ++ (". ( ".data) ++ intToChars zone.serial ++
    (" 3600 900 604800 300 )".data)

def exportSoaLines (zone : Zone) : List Str :=
  let soa := zone.records.filter (fun r => decide (r.record_type = "SOA".data))
  if soa = [] then [synthSoaLine zone] else soa.map renderSoaLine

def renderNsLine (zone : Zone) (ns : Str) : Str :=
  ("@ ".data) ++ intToChars zone.ttl ++ (" IN NS ".data) ++ ns

def exportNsLines (zone : Zone) : List Str := zone.nameservers.map (renderNsLine zone)

/-- The records exported in the final block: every type except SOA and NS. -/
def otherRecords (zone : Zone) : List DnsRecord :=
  zone.records.filter
    (fun r => decide (¬(r.record_type = "SOA".data ∨ r.record_type = "NS".data)))

def renderRecordLine (r : DnsRecord) : Str :=
  match r.priority with
  | some p =>
    r.name ++ (" ".data) ++ intToChars r.ttl ++ (" IN ".data) ++ r.record_type ++
      (" ".data) ++ intToChars p ++ (" ".data) ++ r.value
  | none =>
    r.name ++ (" ".data) ++ intToChars r.ttl ++ (" IN ".data) ++ r.record_type ++
      (" ".data) ++ r.value

def exportOtherLines (zone : Zone) : List Str :=
  (sortRecords (otherRecords zone)).map renderRecordLine

def exportLines (zone : Zone) : List Str :=
  exportHeaderLines zone ++ exportSoaLines zone ++ [[]] ++ exportNsLines zone ++ [[]]
    ++ exportOtherLines zone

/-- `export_bind_format`: `"\n".join(lines) + "\n"`. -/
def export_bind_format (zone : Zone) : Str :=
  joinSepStr ("\n".data) (exportLines zone) ++ ("\n".data)

/-! ## BIND import (`import_zone_file`)

The file-system boundary (`FileNotFoundError`, `p.stem`) stays with the
caller: the parser receives the file text and the fallback stem.  The
zone serial produced by the `Zone` dataclass default is derived from the
current UTC date, modelled by the explicit `serial0` parameter.
Uncaught Python exceptions (`ValueError` from `int`, `IndexError` from
out-of-range subscripts) are modelled by `Except.error`. -/

structure ParseState where
  zoneName : Option Str
  defaultTtl : Int
  records : List DnsRecord
deriving DecidableEq, Repr

/-- `zone_name = zone_name or origin` (Python truthiness: `None` and `""`
are falsy). -/
def pyTruthyOr : Option Str → Str → Option Str
  | some s, o => if s = [] then some o else some s
  | none, o => some o

/-- The tail of the record-line parse, after the `name`, optional numeric
`ttl`, and optional `IN` tokens have been consumed: the next token is the
record type, the remaining tokens joined by single spaces are the value,
MX/SRV pull a leading numeric priority out of the value
(`value.split()[0]` raising `IndexError` on an empty value), and every
type except SOA is appended to the record list. -/
def parseRecordTokens (st : ParseState) (name : Str) (ttl : Int) (tt : Str)
    (valueParts : List Str) : Except Str ParseState :=
  let rtype := upperStr tt
  let value := joinSepStr (" ".data) valueParts
  if rtype = "MX".data ∨ rtype = "SRV".data then
    match pySplitWs value with
    | [] => .error ("IndexError".data)
    | v0 :: vrest =>
      let prioVal : Option Int × Str :=
        if isDigitStr v0 then ((some (charsToNat v0 : Int)), joinSepStr (" ".data) vrest)
        else (none, value)
      .ok { st with records := st.records ++
        (if rtype ≠ "SOA".data then [⟨rtype, name, prioVal.2, ttl, prioVal.1, none⟩] else []) }
  else
    .ok { st with records := st.records ++
      (if rtype ≠ "SOA".data then [⟨rtype, name, value, ttl, none, none⟩] else []) }

def processLine (st : ParseState) (raw : Str) : Except Str ParseState :=
  let line := pyStrip raw
  if line = [] ∨ (";".data).isPrefixOf line then .ok st
  else if ("$ORIGIN".data).isPrefixOf line then
    match pySplitWs line with
    | _ :: second :: _ =>
      .ok { st with zoneName := pyTruthyOr st.zoneName (rstripDots second) }
    | _ => .error ("IndexError".data)
  else if ("$TTL".data).isPrefixOf line then
    match pySplitWs line with
    | _ :: second :: _ =>
      (pyIntChars second).map fun n => { st with defaultTtl := n }
    | _ => .error ("IndexError".data)
  else
    let parts := pySplitWs line
    if parts.length < 4 then .ok st
    else
      match parts with
      | [] => .error ("IndexError".data)
      | name :: rest1 =>
        let step1 : Int × List Str :=
          match rest1 with
          | t :: ts => if isDigitStr t then ((charsToNat t : Int), ts) else (st.defaultTtl, rest1)
          | [] => (st.defaultTtl, [])
        let ttl := step1.1
        let rest2 := step1.2
        let rest3 :=
          match rest2 with
          | t :: ts => if upperStr t = "IN".data then ts else rest2
          | [] => rest2
        match rest3 with
        | [] => .error ("IndexError".data)
        | tt :: valueParts => parseRecordTokens st name ttl tt valueParts

def import_zone_file (stem : Str) (serial0 : Int) (text : Str) : Except Str Zone :=
  match (splitOnChar '\n' text).foldlM processLine ⟨none, 3600, []⟩ with
  | .error e => .error e
  | .ok st =>
    let zname := match st.zoneName with | none => stem | some n => n
    .ok ⟨zname, st.defaultTtl, serial0, defaultNameservers, st.records, none⟩

/-! ## Provider sync stub (`sync_with_provider`) -/

structure CreateEntry where
  type : Str
  name : Str
  value : Str
  ttl : Int
deriving DecidableEq, Repr

/-- The summary dict.  `total_changes = none` models the `"total_changes"`
key being absent from the returned dict. -/
structure SyncSummary where
  provider : Str
  zone : Str
  dry_run : Bool
  records_to_create : List CreateEntry
  records_to_update : List CreateEntry
  records_to_delete : List CreateEntry
  errors : List Str
  total_changes : Option Int
deriving DecidableEq, Repr

/-- The dict key `f"{r.record_type}:{r.name}"`. -/
def recKey (r : DnsRecord) : Str := r.record_type ++ (":".data) ++ r.name

def isAddrType (r : DnsRecord) : Bool :=
  decide (r.record_type = "A".data ∨ r.record_type = "AAAA".data ∨
    r.record_type = "CNAME".data)

/-- Python dict insertion: replace in place if the key exists, else append
(dicts preserve first-insertion key order). -/
def stubInsert (d : List (Str × DnsRecord)) (k : Str) (r : DnsRecord) :
    List (Str × DnsRecord) :=
  if k ∈ d.map Prod.fst then
    d.map (fun p => if p.1 = k then (p.1, r) else p)
  else d ++ [(k, r)]

/-- The `existing_stub` dict comprehension. -/
def buildStub (rs : List DnsRecord) : List (Str × DnsRecord) :=
  (rs.filter isAddrType).foldl (fun d r => stubInsert d (recKey r) r) []

def sync_with_provider (zone : Zone) (provider : Str) (dry_run : Bool) : SyncSummary :=
  let base : SyncSummary :=
    ⟨provider, zone.name, dry_run, [], [], [], [], none⟩
  if ¬(provider = "cloudflare".data ∨ provider = "route53".data ∨
      provider = "digitalocean".data) then
    { base with errors := [("Unsupported provider: ".data) ++ provider] }
  else
    let stub := buildStub zone.records
    let creates := stub.map fun p =>
      (⟨p.2.record_type, p.2.name, p.2.value, p.2.ttl⟩ : CreateEntry)
    { base with
      records_to_create := creates,
      total_changes := some ((creates.length : Int) +
        (base.records_to_update.length : Int) + (base.records_to_delete.length : Int)) }

/-! ## Lemmas about the string primitives -/

theorem isDigit_not_ws {c : Char} (h : c.isDigit = true) : c.isWhitespace = false := by
  by_contra hw
  rw [Bool.not_eq_false, Char.isWhitespace] at hw
  simp only [Bool.or_eq_true, decide_eq_true_eq] at hw
  rcases hw with (((rfl | rfl) | rfl) | rfl) <;> simp [Char.isDigit] at h

theorem splitWsAux_token (t : Str) (ht : ∀ c ∈ t, c.isWhitespace = false) :
    ∀ (l : Str) (acc : Str), splitWsAux (t ++ l) acc = splitWsAux l (t.reverse ++ acc) := by
  induction t with
  | nil => intro l acc; simp
  | cons c t' ih =>
    intro l acc
    have hc : c.isWhitespace = false := ht c (List.mem_cons_self c t')
    have ht' : ∀ x ∈ t', x.isWhitespace = false := fun x hx => ht x (List.mem_cons_of_mem c hx)
    simp only [List.cons_append, splitWsAux, hc, Bool.false_eq_true, if_false]
    rw [show (c :: t').reverse ++ acc = t'.reverse ++ (c :: acc) by simp]
    exact ih ht' l (c :: acc)

theorem pySplitWs_token_cons (t rest : Str) (h0 : t ≠ [])
    (ht : ∀ c ∈ t, c.isWhitespace = false) :
    pySplitWs (t ++ ' ' :: rest) = t :: pySplitWs rest := by
  have hrev : t.reverse ≠ [] := by simpa using h0
  rw [pySplitWs, splitWsAux_token t ht (' ' :: rest) []]
  simp only [List.append_nil, splitWsAux]
  rw [if_pos (by decide), if_neg hrev]
  simp [pySplitWs]

theorem pySplitWs_single (t : Str) (h0 : t ≠ [])
    (ht : ∀ c ∈ t, c.isWhitespace = false) : pySplitWs t = [t] := by
  have hrev : t.reverse ≠ [] := by simpa using h0
  have := splitWsAux_token t ht [] []
  rw [List.append_nil] at this
  rw [pySplitWs, this]
  simp [splitWsAux, hrev]

theorem splitWsAux_tokens (l : Str) :
    ∀ acc : Str, (∀ c ∈ acc, c.isWhitespace = false) →
      ∀ t ∈ splitWsAux l acc, t ≠ [] ∧ ∀ c ∈ t, c.isWhitespace = false := by
  induction l with
  | nil =>
    intro acc hacc t htmem
    simp only [splitWsAux] at htmem
    split at htmem
    · simp at htmem
    · next hne =>
      simp only [List.mem_singleton] at htmem
      subst htmem
      exact ⟨by simpa using hne, fun c hc => hacc c (List.mem_reverse.mp hc)⟩
  | cons c cs ih =>
    intro acc hacc t htmem
    simp only [splitWsAux] at htmem
    by_cases hc : c.isWhitespace = true
    · rw [if_pos hc] at htmem
      by_cases hne : acc = []
      · rw [if_pos hne] at htmem
        exact ih [] (by simp) t htmem
      · rw [if_neg hne] at htmem
        rcases List.mem_cons.mp htmem with rfl | hmem
        · exact ⟨by simpa using hne, fun x hx => hacc x (List.mem_reverse.mp hx)⟩
        · exact ih [] (by simp) t hmem
    · rw [if_neg hc] at htmem
      refine ih (c :: acc) ?_ t htmem
      intro x hx
      rcases List.mem_cons.mp hx with rfl | hmem
      · exact Bool.not_eq_true _ ▸ hc
      · exact hacc x hmem

theorem pySplitWs_tokens (l : Str) :
    ∀ t ∈ pySplitWs l, t ≠ [] ∧ ∀ c ∈ t, c.isWhitespace = false :=
  splitWsAux_tokens l [] (by simp)

theorem splitWsAux_all_ws (s : Str) (hs : ∀ c ∈ s, c.isWhitespace = true) :
    ∀ acc : Str, splitWsAux s acc = if acc = [] then [] else [acc.reverse] := by
  induction s with
  | nil => intro acc; rfl
  | cons c cs ih =>
    intro acc
    have hc : c.isWhitespace = true := hs c (List.mem_cons_self c cs)
    have hs' : ∀ x ∈ cs, x.isWhitespace = true := fun x hx => hs x (List.mem_cons_of_mem c hx)
    simp only [splitWsAux, hc, if_true]
    by_cases hne : acc = []
    · rw [if_pos hne, if_pos hne, ih hs']
      simp
    · rw [if_neg hne, if_neg hne, ih hs']
      simp

theorem splitWsAux_append_ws (s : Str) (hs : ∀ c ∈ s, c.isWhitespace = true) (l : Str) :
    ∀ acc : Str, splitWsAux (l ++ s) acc = splitWsAux l acc := by
  induction l with
  | nil =>
    intro acc
    rw [List.nil_append, splitWsAux_all_ws s hs acc]
    rfl
  | cons c cs ih =>
    intro acc
    simp only [List.cons_append, splitWsAux]
    by_cases hc : c.isWhitespace = true
    · rw [if_pos hc, if_pos hc]
      by_cases hne : acc = []
      · rw [if_pos hne, if_pos hne]
        exact ih []
      · rw [if_neg hne, if_neg hne]
        exact congrArg (acc.reverse :: ·) (ih [])
    · rw [if_neg hc, if_neg hc]
      exact ih (c :: acc)

theorem pySplitWs_append_ws (l s : Str) (hs : ∀ c ∈ s, c.isWhitespace = true) :
    pySplitWs (l ++ s) = pySplitWs l :=
  splitWsAux_append_ws s hs l []

theorem pySplitWs_lstrip (l : Str) : pySplitWs (lstripWs l) = pySplitWs l := by
  induction l with
  | nil => rfl
  | cons c cs ih =>
    rw [lstripWs, List.dropWhile_cons]
    by_cases hc : c.isWhitespace = true
    · rw [if_pos hc]
      rw [lstripWs] at ih
      rw [ih]
      show pySplitWs cs = pySplitWs (c :: cs)
      simp only [pySplitWs, splitWsAux, hc, if_true, if_pos rfl]
    · rw [if_neg hc]

theorem rstripWs_decomp (l : Str) :
    ∃ s : Str, l = rstripWs l ++ s ∧ ∀ c ∈ s, c.isWhitespace = true := by
  refine ⟨(l.reverse.takeWhile Char.isWhitespace).reverse, ?_, ?_⟩
  · rw [rstripWs]
    rw [← List.reverse_append, List.takeWhile_append_dropWhile, List.reverse_reverse]
  · intro c hc
    exact List.mem_takeWhile_imp (List.mem_reverse.mp hc)

theorem pySplitWs_rstrip (l : Str) : pySplitWs (rstripWs l) = pySplitWs l := by
  obtain ⟨s, hdecomp, hs⟩ := rstripWs_decomp l
  conv_rhs => rw [hdecomp]
  rw [pySplitWs_append_ws _ s hs]

theorem pySplitWs_pyStrip (l : Str) : pySplitWs (pyStrip l) = pySplitWs l := by
  rw [pyStrip, pySplitWs_rstrip, pySplitWs_lstrip]

theorem rstripWs_cons_nonws {c : Char} (hc : c.isWhitespace = false) (l : Str) :
    rstripWs (c :: l) = c :: rstripWs l := by
  rw [rstripWs, List.reverse_cons, List.dropWhile_append]
  by_cases h : (List.dropWhile Char.isWhitespace l.reverse).isEmpty = true
  · rw [if_pos h]
    rw [List.isEmpty_iff] at h
    rw [rstripWs, h]
    simp [List.dropWhile_cons, hc]
  · rw [if_neg h]
    simp [rstripWs]

theorem rstripWs_append_nonws {c : Char} (hc : c.isWhitespace = false) (l : Str) :
    rstripWs (l ++ [c]) = l ++ [c] := by
  rw [rstripWs, List.reverse_append]
  simp only [List.reverse_cons, List.reverse_nil, List.nil_append, List.singleton_append,
    List.dropWhile_cons, hc, Bool.false_eq_true, if_false]
  simp

theorem pyStrip_cons_nonws {c : Char} (hc : c.isWhitespace = false) (l : Str) :
    pyStrip (c :: l) = c :: rstripWs l := by
  rw [pyStrip, lstripWs, List.dropWhile_cons, if_neg (by simp [hc]), rstripWs_cons_nonws hc]

theorem joinSepStr_cons₂ (sep : Str) (t t' : Str) (ts : List Str) :
    joinSepStr sep (t :: t' :: ts) = t ++ sep ++ joinSepStr sep (t' :: ts) := rfl

theorem pySplitWs_joinSep (ts : List Str)
    (h : ∀ t ∈ ts, t ≠ [] ∧ ∀ c ∈ t, c.isWhitespace = false) :
    pySplitWs (joinSepStr (" ".data) ts) = ts := by
  induction ts with
  | nil => rfl
  | cons t rest ih =>
    rcases rest with _ | ⟨t', rest'⟩
    · exact pySplitWs_single t (h t (by simp)).1 (h t (by simp)).2
    · rw [joinSepStr_cons₂]
      have : t ++ (" ".data) ++ joinSepStr (" ".data) (t' :: rest') =
          t ++ ' ' :: joinSepStr (" ".data) (t' :: rest') := by simp
      rw [this, pySplitWs_token_cons t _ (h t (by simp)).1 (h t (by simp)).2]
      rw [ih (fun x hx => h x (List.mem_cons_of_mem t hx))]

theorem mem_joinSepStr {c : Char} {sep : Str} {ts : List Str}
    (h : c ∈ joinSepStr sep ts) : (∃ t ∈ ts, c ∈ t) ∨ c ∈ sep := by
  induction ts with
  | nil => simp [joinSepStr] at h
  | cons t rest ih =>
    rcases rest with _ | ⟨t', rest'⟩
    · exact Or.inl ⟨t, by simp, h⟩
    · rw [joinSepStr_cons₂] at h
      rcases List.mem_append.mp h with h1 | h2
      · rcases List.mem_append.mp h1 with h3 | h4
        · exact Or.inl ⟨t, by simp, h3⟩
        · exact Or.inr h4
      · rcases ih h2 with ⟨u, hu, hcu⟩ | hs
        · exact Or.inl ⟨u, List.mem_cons_of_mem t hu, hcu⟩
        · exact Or.inr hs

/-- A value is whitespace-canonical when re-joining its whitespace split with
single spaces reproduces it (the shape the zone-file grammar can express). -/
def canonicalTok (s : Str) : Prop := joinSepStr (" ".data) (pySplitWs s) = s

theorem canonicalTok_mem {s : Str} (h : canonicalTok s) :
    ∀ c ∈ s, c = ' ' ∨ c.isWhitespace = false := by
  intro c hc
  rw [canonicalTok] at h
  rw [← h] at hc
  rcases mem_joinSepStr hc with ⟨t, ht, hct⟩ | hsep
  · exact Or.inr ((pySplitWs_tokens s t ht).2 c hct)
  · left; simpa using hsep

theorem canonicalTok_no_nl {s : Str} (h : canonicalTok s) : '\n' ∉ s := by
  intro hmem
  rcases canonicalTok_mem h '\n' hmem with h1 | h2
  · exact absurd h1 (by decide)
  · exact absurd h2 (by decide)

/-! ## Lemmas about line splitting -/

theorem splitOnChar_no_sep {sep : Char} {l : Str} (h : sep ∉ l) :
    splitOnChar sep l = [l] := by
  induction l with
  | nil => rfl
  | cons c cs ih =>
    have hc : ¬c = sep := fun hcs => h (hcs ▸ List.mem_cons_self c cs)
    have ih' := ih (fun hm => h (List.mem_cons_of_mem c hm))
    simp only [splitOnChar, if_neg hc, ih']

theorem splitOnChar_append_cons {sep : Char} {l : Str} (h : sep ∉ l) (r : Str) :
    splitOnChar sep (l ++ sep :: r) = l :: splitOnChar sep r := by
  induction l with
  | nil => simp [splitOnChar]
  | cons c cs ih =>
    have hc : ¬c = sep := fun hcs => h (hcs ▸ List.mem_cons_self c cs)
    have ih' := ih (fun hm => h (List.mem_cons_of_mem c hm))
    simp only [List.cons_append, splitOnChar, if_neg hc, List.append_eq, ih']

theorem splitOnChar_joinLines (L : List Str) (h0 : L ≠ [])
    (h : ∀ l ∈ L, '\n' ∉ l) :
    splitOnChar '\n' (joinSepStr ("\n".data) L ++ ['\n']) = L ++ [[]] := by
  induction L with
  | nil => exact absurd rfl h0
  | cons l rest ih =>
    rcases rest with _ | ⟨l', rest'⟩
    · show splitOnChar '\n' (l ++ '\n' :: []) = [l, []]
      rw [splitOnChar_append_cons (h l (by simp)) []]
      rfl
    · rw [joinSepStr_cons₂]
      have hshape : l ++ ("\n".data) ++ joinSepStr ("\n".data) (l' :: rest') ++ ['\n'] =
          l ++ '\n' :: (joinSepStr ("\n".data) (l' :: rest') ++ ['\n']) := by simp
      rw [hshape, splitOnChar_append_cons (h l (by simp))]
      rw [ih (by simp) (fun x hx => h x (List.mem_cons_of_mem l hx))]
      rfl

/-! ## Lemmas about decimal rendering and parsing -/

theorem digitChar_spec {r : Nat} (hr : r < 10) :
    (Char.ofNat (48 + r)).isDigit = true ∧ (Char.ofNat (48 + r)).toNat = 48 + r ∧
      (Char.ofNat (48 + r)).isWhitespace = false ∧ ¬Char.ofNat (48 + r) = '-' ∧
      ¬Char.ofNat (48 + r) = '+' := by
  interval_cases r <;> exact ⟨by decide, by decide, by decide, by decide, by decide⟩

theorem natToCharsAux_decomp :
    ∀ (fuel n : Nat) (acc : Str), n < fuel →
      ∃ pre : Str, natToCharsAux fuel n acc = pre ++ acc ∧ pre ≠ [] ∧
        ∀ c ∈ pre, c.isDigit = true := by
  intro fuel
  induction fuel with
  | zero => intro n acc h; omega
  | succ fuel ih =>
    intro n acc h
    by_cases hn : n < 10
    · refine ⟨[Char.ofNat (48 + n % 10)], ?_, by simp, ?_⟩
      · simp [natToCharsAux, hn]
      · intro c hc
        rw [List.mem_singleton] at hc
        subst hc
        exact (digitChar_spec (Nat.mod_lt _ (by omega))).1
    · have hlt : n / 10 < fuel := by
        have h1 : n / 10 < n := Nat.div_lt_self (by omega) (by omega)
        omega
      obtain ⟨pre, heq, hne, hdig⟩ := ih (n / 10) (Char.ofNat (48 + n % 10) :: acc) hlt
      refine ⟨pre ++ [Char.ofNat (48 + n % 10)], ?_, by simp, ?_⟩
      · simp only [natToCharsAux, hn, if_false]
        rw [heq]
        simp
      · intro c hc
        rcases List.mem_append.mp hc with h1 | h2
        · exact hdig c h1
        · rw [List.mem_singleton] at h2
          subst h2
          exact (digitChar_spec (Nat.mod_lt _ (by omega))).1

theorem natToChars_decomp (n : Nat) :
    natToChars n ≠ [] ∧ ∀ c ∈ natToChars n, c.isDigit = true := by
  obtain ⟨pre, heq, hne, hdig⟩ := natToCharsAux_decomp (n + 1) n [] (by omega)
  rw [natToChars, heq, List.append_nil]
  exact ⟨hne, hdig⟩

theorem natToChars_not_ws (n : Nat) : ∀ c ∈ natToChars n, c.isWhitespace = false :=
  fun c hc => isDigit_not_ws ((natToChars_decomp n).2 c hc)

theorem natToCharsAux_foldl :
    ∀ (fuel n : Nat), n < fuel → ∀ (acc : Str) (a : Nat),
      List.foldl (fun a c => 10 * a + (c.toNat - 48)) a (natToCharsAux fuel n acc) =
        List.foldl (fun a c => 10 * a + (c.toNat - 48))
          (a * 10 ^ (Nat.log 10 n + 1) + n) acc := by
  intro fuel
  induction fuel with
  | zero => intro n h; omega
  | succ fuel ih =>
    intro n h acc a
    have hmod : n % 10 < 10 := Nat.mod_lt _ (by omega)
    have htn : (Char.ofNat (48 + n % 10)).toNat = 48 + n % 10 := (digitChar_spec hmod).2.1
    by_cases hn : n < 10
    · have hlog : Nat.log 10 n = 0 := Nat.log_eq_zero_iff.mpr (Or.inl hn)
      simp only [natToCharsAux, hn, if_true, List.foldl_cons, htn, hlog]
      have : 10 * a + (48 + n % 10 - 48) = a * 10 ^ (0 + 1) + n := by
        have : n % 10 = n := Nat.mod_eq_of_lt hn
        rw [this]
        ring_nf
        omega
      rw [this]
    · have hlt : n / 10 < fuel := by
        have h1 : n / 10 < n := Nat.div_lt_self (by omega) (by omega)
        omega
      simp only [natToCharsAux, hn, if_false]
      rw [ih (n / 10) hlt (Char.ofNat (48 + n % 10) :: acc) a]
      simp only [List.foldl_cons, htn]
      have hlogpos : 0 < Nat.log 10 n := Nat.log_pos (by omega) (by omega)
      have hlogdiv : Nat.log 10 (n / 10) = Nat.log 10 n - 1 := Nat.log_div_base 10 n
      have hexp : Nat.log 10 (n / 10) + 1 + 1 = Nat.log 10 n + 1 := by omega
      have harith : 10 * (a * 10 ^ (Nat.log 10 (n / 10) + 1) + n / 10) + (48 + n % 10 - 48) =
          a * 10 ^ (Nat.log 10 (n / 10) + 1 + 1) + n := by
        have hdm : 10 * (n / 10) + n % 10 = n := Nat.div_add_mod n 10
        have : (10:Nat) ^ (Nat.log 10 (n / 10) + 1 + 1) =
            10 ^ (Nat.log 10 (n / 10) + 1) * 10 := by rw [pow_succ]
        rw [this]
        ring_nf
        omega
      rw [harith, hexp]

theorem charsToNat_natToChars (n : Nat) : charsToNat (natToChars n) = n := by
  rw [charsToNat, natToChars, natToCharsAux_foldl (n + 1) n (by omega) [] 0]
  simp

theorem isDigitStr_natToChars (n : Nat) : isDigitStr (natToChars n) = true := by
  obtain ⟨hne, hdig⟩ := natToChars_decomp n
  rw [isDigitStr]
  simp only [Bool.and_eq_true, List.all_eq_true]
  exact ⟨by simpa using hne, hdig⟩

theorem pyIntChars_natToChars (n : Nat) : pyIntChars (natToChars n) = .ok n := by
  obtain ⟨hne, hdig⟩ := natToChars_decomp n
  obtain ⟨c, cs, hcc⟩ := List.exists_cons_of_ne_nil hne
  have hcdig : c.isDigit = true := hdig c (hcc ▸ List.mem_cons_self c cs)
  have hcm : ¬c = '-' := by
    intro hc; subst hc; exact absurd hcdig (by decide)
  have hcp : ¬c = '+' := by
    intro hc; subst hc; exact absurd hcdig (by decide)
  rw [hcc, pyIntChars, if_neg hcm, if_neg hcp, if_pos (hcc ▸ isDigitStr_natToChars n)]
  rw [← hcc, charsToNat_natToChars]

theorem intToChars_nonneg {i : Int} (h : 0 ≤ i) : intToChars i = natToChars i.toNat := by
  rw [intToChars, if_neg (by omega)]

theorem pyIntChars_intToChars (i : Int) : pyIntChars (intToChars i) = .ok i := by
  by_cases h : i < 0
  · rw [intToChars, if_pos h, pyIntChars, if_pos rfl,
      if_pos (isDigitStr_natToChars (-i).toNat), charsToNat_natToChars]
    congr 1
    omega
  · rw [intToChars_nonneg (by omega), pyIntChars_natToChars]
    congr 1
    omega

theorem intToChars_not_ws (i : Int) : ∀ c ∈ intToChars i, c.isWhitespace = false := by
  intro c hc
  rw [intToChars] at hc
  split at hc
  · rcases List.mem_cons.mp hc with rfl | hm
    · decide
    · exact natToChars_not_ws _ c hm
  · exact natToChars_not_ws _ c hc

/-! ## Lemmas about the sort comparator -/

theorem strLtB_irrefl : ∀ s : Str, strLtB s s = false := by
  intro s
  induction s with
  | nil => rfl
  | cons c cs ih => simp [strLtB, lt_irrefl, ih]

theorem strLtB_conn : ∀ {s t : Str}, strLtB s t = false → strLtB t s = false → s = t := by
  intro s
  induction s with
  | nil =>
    intro t h1 _
    cases t with
    | nil => rfl
    | cons c cs => simp [strLtB] at h1
  | cons c cs ih =>
    intro t h1 h2
    cases t with
    | nil => simp [strLtB] at h2
    | cons d ds =>
      simp only [strLtB] at h1 h2
      by_cases hcd : c < d
      · rw [if_pos hcd] at h1; exact absurd h1 (by simp)
      · by_cases hdc : d < c
        · rw [if_pos hdc] at h2; exact absurd h2 (by simp)
        · rw [if_neg hcd, if_neg hdc] at h1
          rw [if_neg hdc, if_neg hcd] at h2
          have hc : c = d := le_antisymm (not_lt.mp hdc) (not_lt.mp hcd)
          rw [hc, ih h1 h2]

theorem strLtB_trans : ∀ {s t u : Str},
    strLtB s t = true → strLtB t u = true → strLtB s u = true := by
  intro s
  induction s with
  | nil =>
    intro t u h1 h2
    cases t with
    | nil => simp [strLtB] at h1
    | cons c cs =>
      cases u with
      | nil => simp [strLtB] at h2
      | cons d ds => rfl
  | cons a as ih =>
    intro t u h1 h2
    cases t with
    | nil => simp [strLtB] at h1
    | cons b bs =>
      cases u with
      | nil => simp [strLtB] at h2
      | cons c cs =>
        simp only [strLtB] at h1 h2 ⊢
        by_cases hab : a < b
        · by_cases hbc : b < c
          · rw [if_pos (lt_trans hab hbc)]
          · rw [if_neg hbc] at h2
            by_cases hcb : c < b
            · rw [if_pos hcb] at h2; exact absurd h2 (by simp)
            · have hbceq : b = c := le_antisymm (not_lt.mp hcb) (not_lt.mp hbc)
              rw [if_pos (hbceq ▸ hab)]
        · rw [if_neg hab] at h1
          by_cases hba : b < a
          · rw [if_pos hba] at h1; exact absurd h1 (by simp)
          · rw [if_neg hba] at h1
            have hab' : a = b := le_antisymm (not_lt.mp hba) (not_lt.mp hab)
            subst hab'
            by_cases hac : a < c
            · rw [if_pos hac]
            · rw [if_neg hac] at h2 ⊢
              by_cases hca : c < a
              · rw [if_pos hca] at h2; exact absurd h2 (by simp)
              · rw [if_neg hca] at h2 ⊢
                exact ih h1 h2

instance : IsTotal DnsRecord recLe := by
  constructor
  intro a b
  by_cases h1 : strLtB a.record_type b.record_type = true
  · exact Or.inl (Or.inl h1)
  · by_cases h2 : strLtB b.record_type a.record_type = true
    · exact Or.inr (Or.inl h2)
    · have ht : a.record_type = b.record_type :=
        strLtB_conn (Bool.not_eq_true _ ▸ h1) (Bool.not_eq_true _ ▸ h2)
      by_cases h3 : strLtB a.name b.name = true
      · exact Or.inl (Or.inr ⟨ht, Or.inl h3⟩)
      · by_cases h4 : strLtB b.name a.name = true
        · exact Or.inr (Or.inr ⟨ht.symm, Or.inl h4⟩)
        · have hn : a.name = b.name :=
            strLtB_conn (Bool.not_eq_true _ ▸ h3) (Bool.not_eq_true _ ▸ h4)
          exact Or.inl (Or.inr ⟨ht, Or.inr hn⟩)

instance : IsTrans DnsRecord recLe := by
  constructor
  intro a b c hab hbc
  rcases hab with h1 | ⟨he1, hn1⟩
  · rcases hbc with h2 | ⟨he2, _⟩
    · exact Or.inl (strLtB_trans h1 h2)
    · exact Or.inl (he2 ▸ h1)
  · rcases hbc with h2 | ⟨he2, hn2⟩
    · exact Or.inl (he1 ▸ h2)
    · refine Or.inr ⟨he1.trans he2, ?_⟩
      rcases hn1 with h3 | h3
      · rcases hn2 with h4 | h4
        · exact Or.inl (strLtB_trans h3 h4)
        · exact Or.inl (h4 ▸ h3)
      · rcases hn2 with h4 | h4
        · exact Or.inl (h3 ▸ h4)
        · exact Or.inr (h3.trans h4)

/-! ## Concrete zones used in counterexamples and witnesses -/

/-- A zone holding a single A record. -/
def zoneA : Zone :=
  ⟨"example.com".data, 3600, 2024010101, defaultNameservers,
    [⟨"A".data, "www".data, "1.2.3.4".data, 300, none, none⟩], none⟩

/-- A zone holding two A records with the same name but different values. -/
def zoneB : Zone :=
  ⟨"example.com".data, 3600, 1, defaultNameservers,
    [⟨"A".data, "www".data, "1.2.3.4".data, 300, none, none⟩,
     ⟨"A".data, "www".data, "5.6.7.8".data, 300, none, none⟩], none⟩

/-- A zone with no records at all (every field the dataclass default). -/
def zoneEmpty : Zone :=
  ⟨"example.com".data, 3600, 2024010101, defaultNameservers, [], none⟩

/-- A zone whose only record is an NS record. -/
def zoneNs : Zone :=
  ⟨"example.com".data, 3600, 1, defaultNameservers,
    [⟨"NS".data, "@".data, "ns.other.example.".data, 3600, none, none⟩], none⟩

/-! ## Claim C5: record validation -/

/-- Claim C5: `validate_record r` is empty iff the record type is one of the
ten recognized values, name and value are non-empty, the ttl is
non-negative, the value matches the type-specific syntax when one is
defined (A dotted-quad, AAAA hex-and-colon of length 2–39, CNAME/MX/NS/PTR
hostname-like; TXT/SOA/SRV/CAA have no specific validator), and an MX or
SRV type carries a priority. -/
theorem validate_record_empty_iff (r : DnsRecord) :
    validate_record r = [] ↔
      (r.record_type ∈ VALID_TYPES ∧ r.name ≠ [] ∧ r.value ≠ [] ∧ 0 ≤ r.ttl ∧
        (∀ v, validatorFor r.record_type = some v → v r.value = true) ∧
        ((r.record_type = "MX".data ∨ r.record_type = "SRV".data) → r.priority ≠ none)) := by
  constructor
  · intro h
    rw [validate_record] at h
    simp only [List.append_eq_nil] at h
    obtain ⟨⟨⟨⟨⟨h1, h2⟩, h3⟩, h4⟩, h5⟩, h6⟩ := h
    refine ⟨?_, ?_, ?_, ?_, ?_, ?_⟩
    · by_contra hc
      rw [if_neg hc] at h1
      simp at h1
    · intro hc
      rw [if_pos hc] at h2
      simp at h2
    · intro hc
      rw [if_pos hc] at h3
      simp at h3
    · by_contra hc
      rw [if_pos (by omega)] at h4
      simp at h4
    · intro v hv
      rw [hv] at h5
      dsimp only at h5
      by_contra hc
      rw [if_neg hc] at h5
      simp at h5
    · intro hmx
      by_contra hp
      rw [if_pos ⟨hmx, hp⟩] at h6
      simp at h6
  · rintro ⟨h1, h2, h3, h4, h5, h6⟩
    rw [validate_record, if_pos h1, if_neg h2, if_neg h3, if_neg (by omega)]
    have h6' : ¬((r.record_type = "MX".data ∨ r.record_type = "SRV".data) ∧
        r.priority = none) := by
      rintro ⟨ha, hb⟩
      exact h6 ha hb
    rw [if_neg h6']
    rcases hv : validatorFor r.record_type with _ | v
    · simp
    · have hval := h5 v hv
      simp [hval]

/-! ## Claim C6: exporter totality and trailing newline -/

/-- Claim C6 counterexample: on a zone with no records other than SOA/NS the
exported text ends with a blank line, i.e. with two newline characters, so
the output does not end with exactly one trailing newline. -/
theorem export_two_trailing_newlines :
    (export_bind_format zoneEmpty).reverse.take 2 = ['\n', '\n'] := by decide

/-- Claim C6 (amended): the exporter is total (it is a function defined on
every `Zone` value, validity is not a precondition) and its output always
ends with a trailing newline — though not always with exactly one. -/
theorem export_ends_with_newline (zone : Zone) :
    ∃ s : Str, export_bind_format zone = s ++ ("\n".data) :=
  ⟨joinSepStr ("\n".data) (exportLines zone), rfl⟩

/-! ## Claim C7: the sorted record block of the exporter -/

/-- Claim C7: the record lines after the NS block are exactly the zone's
records whose type is neither SOA nor NS, sorted by the pair
(type, name) in lexicographic order; the SOA block and the NS block
preserve their source order, so the final block is the only place order is
normalized. -/
theorem export_record_block_sorted (z : Zone) :
    (exportLines z = exportHeaderLines z ++ exportSoaLines z ++ [[]] ++ exportNsLines z
        ++ [[]] ++ (sortRecords (otherRecords z)).map renderRecordLine) ∧
    List.Perm (sortRecords (otherRecords z)) (otherRecords z) ∧
    List.Sorted recLe (sortRecords (otherRecords z)) ∧
    exportNsLines z = z.nameservers.map (renderNsLine z) ∧
    exportSoaLines z =
      (if z.records.filter (fun r => decide (r.record_type = "SOA".data)) = []
       then [synthSoaLine z]
       else (z.records.filter (fun r => decide (r.record_type = "SOA".data))).map
         renderSoaLine) :=
  ⟨rfl, List.perm_insertionSort recLe _, List.sorted_insertionSort recLe _, rfl, rfl⟩

/-! ## Claim C8: `add_record` with MX/SRV and no priority -/

/-- Claim C8: calling `add_record` with type MX or SRV and no priority fails
with a validation error raised before any mutation: the returned state is
the unchanged input zone (the database insert, which the source only
reaches after validation, is never executed). -/
theorem add_record_missing_priority (z : Zone) (rt n v : Str) (t : Int)
    (h : rt = "MX".data ∨ rt = "SRV".data) :
    (∃ e, (add_record z rt n v t none).1 = Except.error e) ∧
      (add_record z rt n v t none).2 = z ∧
      (add_record z rt n v t none).2.records = z.records := by
  have key : ∀ rt' : Str, upperStr rt' = rt' →
      (rt' = "MX".data ∨ rt' = "SRV".data) →
      (∃ e, (add_record z rt' n v t none).1 = Except.error e) ∧
        (add_record z rt' n v t none).2 = z ∧
        (add_record z rt' n v t none).2.records = z.records := by
    intro rt' hup hmx
    have herr : validate_record ⟨upperStr rt', n, v, t, none, none⟩ ≠ [] := by
      rw [validate_record]
      intro hnil
      simp only [List.append_eq_nil] at hnil
      have h6 := hnil.2
      rw [if_pos ⟨by simpa [hup] using hmx, trivial⟩] at h6
      simp at h6
    simp only [add_record, if_neg herr]
    exact ⟨Exists.intro _ rfl, trivial, trivial⟩
  rcases h with rfl | rfl
  · exact key _ (by decide) (Or.inl rfl)
  · exact key _ (by decide) (Or.inr rfl)

/-- Claim C8 witness: the theorem applied to a concrete zone and record. -/
theorem add_record_missing_priority_witness :
    (∃ e, (add_record zoneA ("MX".data) ("mail".data) ("mail.example.com.".data)
        300 none).1 = Except.error e) ∧
      (add_record zoneA ("MX".data) ("mail".data) ("mail.example.com.".data)
        300 none).2 = zoneA ∧
      (add_record zoneA ("MX".data) ("mail".data) ("mail.example.com.".data)
        300 none).2.records = zoneA.records :=
  add_record_missing_priority zoneA ("MX".data) ("mail".data)
    ("mail.example.com.".data) 300 (Or.inl rfl)

/-! ## Claim C9: `add_record` uppercases the record type -/

/-- Claim C9: `add_record` uppercases its type argument before validating,
so any spelling whose uppercase form is a recognized type behaves exactly
like the uppercase spelling and the appended record carries the uppercase
type, while `validate_record` applied directly to a record with an
unrecognized (e.g. lowercase) type reports an unknown-type error. -/
theorem add_record_uppercases_type (tp : Str) (h : upperStr tp ∈ VALID_TYPES)
    (z : Zone) (n v : Str) (t : Int) (p : Option Int) :
    add_record z tp n v t p = add_record z (upperStr tp) n v t p ∧
      (∀ r, (add_record z tp n v t p).1 = Except.ok r → r.record_type = upperStr tp) ∧
      (tp ∉ VALID_TYPES →
        (("Unknown record type: ".data) ++ tp) ∈ validate_record ⟨tp, n, v, t, p, none⟩) := by
  have hU : upperStr (upperStr tp) = upperStr tp := by
    simp only [VALID_TYPES, List.mem_cons, List.not_mem_nil, or_false] at h
    rcases h with h | h | h | h | h | h | h | h | h | h <;> rw [h] <;> decide
  refine ⟨?_, ?_, ?_⟩
  · simp only [add_record, hU]
  · intro r hr
    simp only [add_record] at hr
    split at hr
    · simpa using (Except.ok.inj hr).symm ▸ rfl
    · exact absurd hr (by simp)
  · intro hnot
    rw [validate_record, if_neg hnot]
    exact List.mem_append_left _ (List.mem_append_left _ (List.mem_append_left _
      (List.mem_append_left _ (List.mem_append_left _ (List.mem_cons_self _ _)))))

/-- Claim C9 witness: `"mx"` behaves exactly like `"MX"` and the stored
record carries type `"MX"`, while direct validation of a `"mx"`-typed record
reports an unknown type. -/
theorem add_record_uppercases_type_witness :
    (add_record zoneA ("mx".data) ("mail".data) ("mail.example.com.".data) 300 (some 10) =
      add_record zoneA (upperStr ("mx".data)) ("mail".data) ("mail.example.com.".data)
        300 (some 10)) ∧
      (("mx".data) ∉ VALID_TYPES →
        (("Unknown record type: ".data) ++ ("mx".data)) ∈
          validate_record ⟨"mx".data, "mail".data, "mail.example.com.".data, 300,
            some 10, none⟩) := by
  have h := add_record_uppercases_type ("mx".data) (by decide) zoneA ("mail".data)
    ("mail.example.com.".data) 300 (some 10)
  exact ⟨h.1, h.2.2⟩

/-! ## Claim C3: sync with an unsupported provider -/

/-- Claim C3 evaluation at the failing input: the summary returned for an
unsupported provider carries exactly one "Unsupported provider" error and
three empty change lists, but no `total_changes` entry at all (`none`
models the key being absent), because the early return happens before the
total is computed. -/
theorem sync_unknown_provider_summary :
    sync_with_provider zoneA ("unknown-host".data) true =
      ⟨"unknown-host".data, "example.com".data, true, [], [], [],
        [("Unsupported provider: unknown-host".data)], none⟩ := by decide

/-! ## Claim C4: sync change list for supported providers -/

/-- Claim C4 counterexample: two A records sharing a name collapse to a
single `records_to_create` entry (the dict key `type:name` deduplicates),
so the change list does not have one entry per A/AAAA/CNAME record and
`total_changes` is 1, not 2. -/
theorem sync_create_list_deduplicates :
    (sync_with_provider zoneB ("cloudflare".data) true).records_to_create.length = 1 ∧
      (zoneB.records.filter isAddrType).length = 2 ∧
      (sync_with_provider zoneB ("cloudflare".data) true).total_changes = some 1 := by
  decide

theorem stubInsert_keys_mem (d : List (Str × DnsRecord)) (k x : Str) (r : DnsRecord) :
    x ∈ (stubInsert d k r).map Prod.fst ↔ x ∈ d.map Prod.fst ∨ x = k := by
  rw [stubInsert]
  by_cases hk : k ∈ d.map Prod.fst
  · rw [if_pos hk]
    rw [List.map_map]
    have : (Prod.fst ∘ fun p : Str × DnsRecord => if p.1 = k then (p.1, r) else p) =
        Prod.fst := by
      funext p
      by_cases hp : p.1 = k <;> simp [hp]
    rw [this]
    constructor
    · exact Or.inl
    · rintro (hx | rfl)
      · exact hx
      · exact hk
  · rw [if_neg hk]
    simp

theorem stubInsert_keys_nodup (d : List (Str × DnsRecord)) (k : Str) (r : DnsRecord)
    (h : (d.map Prod.fst).Nodup) : ((stubInsert d k r).map Prod.fst).Nodup := by
  rw [stubInsert]
  by_cases hk : k ∈ d.map Prod.fst
  · rw [if_pos hk]
    rw [List.map_map]
    have : (Prod.fst ∘ fun p : Str × DnsRecord => if p.1 = k then (p.1, r) else p) =
        Prod.fst := by
      funext p
      by_cases hp : p.1 = k <;> simp [hp]
    rw [this]
    exact h
  · rw [if_neg hk]
    rw [List.map_append, List.nodup_append]
    refine ⟨h, by simp, ?_⟩
    intro x hx
    simp only [List.map_cons, List.map_nil, List.mem_singleton]
    rintro rfl
    exact hk hx

theorem foldl_stub_nodup (rs : List DnsRecord) :
    ∀ d : List (Str × DnsRecord), (d.map Prod.fst).Nodup →
      ((rs.foldl (fun d r => stubInsert d (recKey r) r) d).map Prod.fst).Nodup := by
  induction rs with
  | nil => intro d h; exact h
  | cons r rs ih =>
    intro d h
    exact ih _ (stubInsert_keys_nodup d (recKey r) r h)

theorem foldl_stub_mem (rs : List DnsRecord) :
    ∀ (d : List (Str × DnsRecord)) (k : Str),
      k ∈ ((rs.foldl (fun d r => stubInsert d (recKey r) r) d).map Prod.fst) ↔
        k ∈ d.map Prod.fst ∨ k ∈ rs.map recKey := by
  induction rs with
  | nil => intro d k; simp
  | cons r rs ih =>
    intro d k
    rw [List.foldl_cons, ih, stubInsert_keys_mem]
    simp only [List.map_cons, List.mem_cons]
    tauto

/-- Claim C4 (amended): for a supported provider the `records_to_create`
list has one entry per distinct `(type, name)` key among the zone's
A/AAAA/CNAME records (when several records share a key only the last one
contributes, because the stub dict is keyed by `type:name`), and
`total_changes` is the number of distinct keys. -/
theorem sync_create_list_per_key (z : Zone) (p : Str) (d : Bool)
    (hp : p = "cloudflare".data ∨ p = "route53".data ∨ p = "digitalocean".data) :
    (sync_with_provider z p d).records_to_create =
      (buildStub z.records).map
        (fun q => (⟨q.2.record_type, q.2.name, q.2.value, q.2.ttl⟩ : CreateEntry)) ∧
      ((buildStub z.records).map Prod.fst).Nodup ∧
      (∀ k, k ∈ (buildStub z.records).map Prod.fst ↔
        k ∈ (z.records.filter isAddrType).map recKey) ∧
      (sync_with_provider z p d).total_changes =
        some ((buildStub z.records).length : Int) := by
  have hcond : ¬¬(p = "cloudflare".data ∨ p = "route53".data ∨
      p = "digitalocean".data) := not_not_intro hp
  refine ⟨?_, ?_, ?_, ?_⟩
  · simp only [sync_with_provider, if_neg hcond]
  · exact foldl_stub_nodup _ [] (by simp)
  · intro k
    rw [buildStub, foldl_stub_mem]
    simp
  · simp only [sync_with_provider, if_neg hcond, buildStub]
    simp

/-- Claim C4 witness: the amended statement evaluated on a concrete zone
with a supported provider. -/
theorem sync_create_list_per_key_witness :
    (sync_with_provider zoneB ("cloudflare".data) true).records_to_create =
      (buildStub zoneB.records).map
        (fun q => (⟨q.2.record_type, q.2.name, q.2.value, q.2.ttl⟩ : CreateEntry)) ∧
      (sync_with_provider zoneB ("cloudflare".data) true).total_changes =
        some ((buildStub zoneB.records).length : Int) :=
  ⟨(sync_create_list_per_key zoneB ("cloudflare".data) true (Or.inl rfl)).1,
    (sync_create_list_per_key zoneB ("cloudflare".data) true (Or.inl rfl)).2.2.2⟩

/-! ## Claim C2: the importer on malformed content -/

/-- Claim C2 evaluation at the failing inputs: the importer raises instead
of skipping.  A `$TTL` directive with a non-integer second token raises
`ValueError` from `int`, a bare `$TTL` directive raises `IndexError` from
the `[1]` subscript, and an MX record line with an empty value field
raises `IndexError` from `value.split()[0]`. -/
theorem import_raises_on_malformed :
    (import_zone_file ("zone".data) 0 ("$TTL oops\n".data)) = .error ("ValueError".data) ∧
      (import_zone_file ("zone".data) 0 ("$TTL\n".data)) = .error ("IndexError".data) ∧
      (import_zone_file ("zone".data) 0 ("mail 300 IN MX\n".data)) =
        .error ("IndexError".data) := by decide

/-! ## Claim C10: imported zones keep the placeholder nameservers -/

/-- Claim C10: every zone built by the importer carries the default
placeholder nameserver list, and an NS line in the body is parsed as an
ordinary record in `zone.records` rather than populating `nameservers`. -/
theorem import_nameservers_default :
    (∀ (stem : Str) (serial0 : Int) (text : Str) (z : Zone),
        (import_zone_file stem serial0 text) = .ok z →
          z.nameservers = defaultNameservers) ∧
      (import_zone_file ("zonefile".data) 7
          ("$ORIGIN x.test.\n@ 300 IN NS ns9.example.\n".data)) =
        .ok ⟨"x.test".data, 3600, 7, defaultNameservers,
          [⟨"NS".data, "@".data, "ns9.example.".data, 300, none, none⟩], none⟩ := by
  constructor
  · intro stem serial0 text z h
    rw [import_zone_file] at h
    rcases hf : (splitOnChar '\n' text).foldlM processLine ⟨none, 3600, []⟩ with e | st
    · rw [hf] at h
      exact absurd h (by simp)
    · rw [hf] at h
      dsimp only at h
      rw [← Except.ok.inj h]
  · decide

/-- Claim C10 witness: the universal statement applied to the concrete
imported zone whose input text contains an NS body line. -/
theorem import_nameservers_default_witness :
    (⟨"x.test".data, 3600, 7, defaultNameservers,
      [⟨"NS".data, "@".data, "ns9.example.".data, 300, none, none⟩], none⟩ : Zone).nameservers =
      defaultNameservers :=
  (import_nameservers_default.1 ("zonefile".data) 7
    ("$ORIGIN x.test.\n@ 300 IN NS ns9.example.\n".data) _ import_nameservers_default.2)

/-! ## Claim C1: round-tripping the exporter through the importer -/

/-- A nonempty whitespace-free token. -/
def tokenOK (s : Str) : Prop := s ≠ [] ∧ ∀ c ∈ s, c.isWhitespace = false

/-- The fields of a record that the zone-file grammar can express, so that
the exporter's line for it parses back to the same record.  NS records
carry no condition (the exporter drops them), SOA records only need to
produce a well-formed (discarded) line, and all other records need
grammar-expressible fields: token-shaped name not colliding with the
comment/directive syntax, non-negative ttl, an upper-case token-shaped
type, a whitespace-canonical value, a non-negative priority carried only
by MX/SRV, and for a priority-less MX/SRV a value whose first token is
not purely numeric (and which is nonempty, since an empty MX/SRV value
crashes the importer). -/
def recordExpressible (r : DnsRecord) : Prop :=
  (r.record_type = "SOA".data →
    tokenOK r.name ∧ r.name.headI ≠ ';' ∧ r.name.headI ≠ '$' ∧ 0 ≤ r.ttl ∧
      '\n' ∉ r.value) ∧
  (r.record_type ≠ "SOA".data → r.record_type ≠ "NS".data →
    tokenOK r.name ∧ r.name.headI ≠ ';' ∧ r.name.headI ≠ '$' ∧ 0 ≤ r.ttl ∧
      tokenOK r.record_type ∧ upperStr r.record_type = r.record_type ∧
      canonicalTok r.value ∧
      0 ≤ r.priority.getD 0 ∧
      (r.priority ≠ none → (r.record_type = "MX".data ∨ r.record_type = "SRV".data)) ∧
      ((r.record_type = "MX".data ∨ r.record_type = "SRV".data) → r.priority = none →
        pySplitWs r.value ≠ [] ∧ isDigitStr (pySplitWs r.value).headI = false))

/-- A zone every part of which survives the export/import round trip. -/
def exportExpressible (z : Zone) : Prop :=
  0 ≤ z.ttl ∧ (∀ c ∈ z.name, c.isWhitespace = false) ∧
    (∀ ns ∈ z.nameservers, canonicalTok ns) ∧ ∀ r ∈ z.records, recordExpressible r

instance (s : Str) : Decidable (tokenOK s) := by
  unfold tokenOK
  infer_instance

instance (s : Str) : Decidable (canonicalTok s) := by
  unfold canonicalTok
  infer_instance

instance (r : DnsRecord) : Decidable (recordExpressible r) := by
  unfold recordExpressible
  infer_instance

instance (z : Zone) : Decidable (exportExpressible z) := by
  unfold exportExpressible
  infer_instance

/-- The NS record the importer reconstructs from an exported NS line. -/
def nsRecordOf (ttl : Int) (ns : Str) : DnsRecord := ⟨"NS".data, "@".data, ns, ttl, none, none⟩

/-- Forget the persistence id (the importer always yields `record_id = none`). -/
def stripId (r : DnsRecord) : DnsRecord :=
  ⟨r.record_type, r.name, r.value, r.ttl, r.priority, none⟩

theorem no_nl_of_noWs {s : Str} (h : ∀ c ∈ s, c.isWhitespace = false) : '\n' ∉ s :=
  fun hm => by simpa using h '\n' hm

/-! ### Evaluating `parseRecordTokens` -/

theorem parseRecordTokens_soa (st : ParseState) (name : Str) (ttl : Int)
    (vp : List Str) : parseRecordTokens st name ttl ("SOA".data) vp = .ok st := by
  simp only [parseRecordTokens,
    show upperStr ("SOA".data) = "SOA".data from by decide]
  rw [if_neg (by decide), if_neg (by decide)]
  simp

theorem parseRecordTokens_plain (st : ParseState) (name : Str) (ttl : Int) (tt : Str)
    (vp : List Str) (hup : upperStr tt = tt) (hsoa : tt ≠ "SOA".data)
    (hmx : ¬(tt = "MX".data ∨ tt = "SRV".data)) :
    parseRecordTokens st name ttl tt vp =
      .ok { st with records := st.records ++
        [⟨tt, name, joinSepStr (" ".data) vp, ttl, none, none⟩] } := by
  simp only [parseRecordTokens, hup]
  rw [if_neg hmx, if_pos hsoa]

theorem parseRecordTokens_mx_prio (st : ParseState) (name : Str) (ttl : Int) (tt : Str)
    (p : Nat) (vp : List Str) (hup : upperStr tt = tt)
    (hmx : tt = "MX".data ∨ tt = "SRV".data)
    (hvp : ∀ t ∈ vp, t ≠ [] ∧ ∀ c ∈ t, c.isWhitespace = false) :
    parseRecordTokens st name ttl tt (natToChars p :: vp) =
      .ok { st with records := st.records ++
        [⟨tt, name, joinSepStr (" ".data) vp, ttl, some (p : Int), none⟩] } := by
  have hsoa : tt ≠ "SOA".data := by rcases hmx with rfl | rfl <;> decide
  have hre : pySplitWs (joinSepStr (" ".data) (natToChars p :: vp)) = natToChars p :: vp := by
    apply pySplitWs_joinSep
    intro t ht
    rcases List.mem_cons.mp ht with rfl | hm
    · exact ⟨(natToChars_decomp p).1, natToChars_not_ws p⟩
    · exact hvp t hm
  simp only [parseRecordTokens, hup]
  rw [if_pos hmx, hre]
  dsimp only
  rw [if_pos (isDigitStr_natToChars p), if_pos hsoa, charsToNat_natToChars]

theorem parseRecordTokens_mx_noprio (st : ParseState) (name : Str) (ttl : Int) (tt : Str)
    (vp : List Str) (hup : upperStr tt = tt)
    (hmx : tt = "MX".data ∨ tt = "SRV".data)
    (hvp : ∀ t ∈ vp, t ≠ [] ∧ ∀ c ∈ t, c.isWhitespace = false)
    (hne : vp ≠ []) (hv0 : isDigitStr vp.headI = false) :
    parseRecordTokens st name ttl tt vp =
      .ok { st with records := st.records ++
        [⟨tt, name, joinSepStr (" ".data) vp, ttl, none, none⟩] } := by
  have hsoa : tt ≠ "SOA".data := by rcases hmx with rfl | rfl <;> decide
  have hre : pySplitWs (joinSepStr (" ".data) vp) = vp := pySplitWs_joinSep vp hvp
  obtain ⟨v0, vrest, rfl⟩ := List.exists_cons_of_ne_nil hne
  have hv0' : isDigitStr v0 = false := by simpa [List.headI] using hv0
  simp only [parseRecordTokens, hup]
  rw [if_pos hmx, hre]
  dsimp only
  rw [if_neg (show ¬(isDigitStr v0 = true) by simp [hv0']), if_pos hsoa]

/-! ### Evaluating `processLine` on each exported line shape -/

theorem processLine_blank (st : ParseState) : processLine st [] = .ok st := rfl

theorem processLine_comment (st : ParseState) (l : Str) :
    processLine st (';' :: l) = .ok st := by
  have hstrip : pyStrip (';' :: l) = ';' :: rstripWs l := pyStrip_cons_nonws (by decide) l
  simp only [processLine, hstrip]
  rw [if_pos (Or.inr (by simp [List.isPrefixOf]))]

theorem rstripWs_append_noWs (X l : Str) (h0 : l ≠ [])
    (h : ∀ c ∈ l, c.isWhitespace = false) : rstripWs (X ++ l) = X ++ l := by
  obtain ⟨c, t, hct⟩ := List.exists_cons_of_ne_nil
    (show l.reverse ≠ [] by simpa using h0)
  have hl : l = t.reverse ++ [c] := by
    rw [← List.reverse_reverse l, hct]
    simp
  have hc : c.isWhitespace = false := h c (by rw [hl]; simp)
  rw [hl, ← List.append_assoc, rstripWs_append_nonws hc]

theorem processLine_origin (st : ParseState) (zname : Str)
    (hn : ∀ c ∈ zname, c.isWhitespace = false) :
    processLine st (("$ORIGIN ".data) ++ zname ++ (".".data)) =
      .ok { st with zoneName := pyTruthyOr st.zoneName (rstripDots (zname ++ (".".data))) } := by
  have hshape : ("$ORIGIN ".data) ++ zname ++ (".".data) =
      '$' :: (("ORIGIN ".data) ++ (zname ++ (".".data))) := by simp
  have htail0 : zname ++ (".".data) ≠ [] := by simp
  have htailw : ∀ c ∈ zname ++ (".".data), c.isWhitespace = false := by
    intro c hc
    rcases List.mem_append.mp hc with h1 | h2
    · exact hn c h1
    · have hcd : c = '.' := List.mem_singleton.mp h2
      subst hcd
      decide
  have hstrip : pyStrip (("$ORIGIN ".data) ++ zname ++ (".".data)) =
      ("$ORIGIN ".data) ++ zname ++ (".".data) := by
    rw [hshape, pyStrip_cons_nonws (by decide),
      rstripWs_append_noWs (("ORIGIN ".data)) _ htail0 htailw]
  have htok : pySplitWs (("$ORIGIN ".data) ++ zname ++ (".".data)) =
      [("$ORIGIN".data), zname ++ (".".data)] := by
    have hshape2 : ("$ORIGIN ".data) ++ zname ++ (".".data) =
        ("$ORIGIN".data) ++ ' ' :: (zname ++ (".".data)) := by simp
    rw [hshape2, pySplitWs_token_cons _ _ (by decide) (by decide),
      pySplitWs_single _ htail0 htailw]
  simp only [processLine, hstrip]
  rw [if_neg (by simp [List.isPrefixOf, hshape]), if_pos (by simp [List.isPrefixOf, hshape]),
    htok]

theorem processLine_ttl (st : ParseState) (v : Int) :
    processLine st (("$TTL ".data) ++ intToChars v) =
      .ok { st with defaultTtl := v } := by
  have h0 : intToChars v ≠ [] := by
    rw [intToChars]
    split
    · simp
    · exact (natToChars_decomp _).1
  have hshape : ("$TTL ".data) ++ intToChars v =
      '$' :: (("TTL ".data) ++ intToChars v) := by simp
  have hstrip : pyStrip (("$TTL ".data) ++ intToChars v) =
      ("$TTL ".data) ++ intToChars v := by
    rw [hshape, pyStrip_cons_nonws (by decide),
      rstripWs_append_noWs (("TTL ".data)) _ h0 (intToChars_not_ws v)]
  have htok : pySplitWs (("$TTL ".data) ++ intToChars v) =
      [("$TTL".data), intToChars v] := by
    have hshape2 : ("$TTL ".data) ++ intToChars v =
        ("$TTL".data) ++ ' ' :: intToChars v := by simp
    rw [hshape2, pySplitWs_token_cons _ _ (by decide) (by decide),
      pySplitWs_single _ h0 (intToChars_not_ws v)]
  simp only [processLine, hstrip]
  rw [if_neg (by simp [List.isPrefixOf, hshape]), if_neg (by simp [List.isPrefixOf, hshape]),
    if_pos (by simp [List.isPrefixOf, hshape]), htok]
  dsimp only
  rw [pyIntChars_intToChars]
  rfl

theorem processLine_record_shape (st : ParseState) (T0 T3 V : Str) (tn : Nat)
    (h00 : T0 ≠ []) (h0w : ∀ c ∈ T0, c.isWhitespace = false)
    (h0s : T0.headI ≠ ';') (h0d : T0.headI ≠ '$')
    (h30 : T3 ≠ []) (h3w : ∀ c ∈ T3, c.isWhitespace = false) :
    processLine st (T0 ++ ' ' :: (natToChars tn ++ ' ' :: (("IN".data) ++ ' ' ::
        (T3 ++ ' ' :: V)))) =
      parseRecordTokens st T0 ((tn : Int)) T3 (pySplitWs V) := by
  obtain ⟨c0, T0', rfl⟩ := List.exists_cons_of_ne_nil h00
  have hc0 : c0.isWhitespace = false := h0w c0 (List.mem_cons_self _ _)
  have hc0s : c0 ≠ ';' := by simpa [List.headI] using h0s
  have hc0d : c0 ≠ '$' := by simpa [List.headI] using h0d
  have hstrip : pyStrip ((c0 :: T0') ++ ' ' :: (natToChars tn ++ ' ' :: (("IN".data) ++ ' ' ::
      (T3 ++ ' ' :: V)))) =
      c0 :: rstripWs (T0' ++ ' ' :: (natToChars tn ++ ' ' :: (("IN".data) ++ ' ' ::
        (T3 ++ ' ' :: V)))) := by
    rw [List.cons_append, pyStrip_cons_nonws hc0]
  have htok : pySplitWs ((c0 :: T0') ++ ' ' :: (natToChars tn ++ ' ' :: (("IN".data) ++ ' ' ::
      (T3 ++ ' ' :: V)))) =
      (c0 :: T0') :: natToChars tn :: ("IN".data) :: T3 :: pySplitWs V := by
    rw [pySplitWs_token_cons _ _ (by simp) h0w,
      pySplitWs_token_cons _ _ (natToChars_decomp tn).1 (natToChars_not_ws tn),
      pySplitWs_token_cons _ _ (by decide) (by decide),
      pySplitWs_token_cons _ _ h30 h3w]
  have htok' : pySplitWs (c0 :: rstripWs (T0' ++ ' ' :: (natToChars tn ++ ' ' ::
      (("IN".data) ++ ' ' :: (T3 ++ ' ' :: V))))) =
      (c0 :: T0') :: natToChars tn :: ("IN".data) :: T3 :: pySplitWs V := by
    have hps := pySplitWs_pyStrip ((c0 :: T0') ++ ' ' :: (natToChars tn ++ ' ' ::
      (("IN".data) ++ ' ' :: (T3 ++ ' ' :: V))))
    rw [hstrip] at hps
    rw [hps, htok]
  simp only [processLine, hstrip]
  rw [if_neg (show ¬(c0 :: rstripWs (T0' ++ ' ' :: (natToChars tn ++ ' ' ::
      (("IN".data) ++ ' ' :: (T3 ++ ' ' :: V)))) = [] ∨
      ((";".data).isPrefixOf (c0 :: rstripWs (T0' ++ ' ' :: (natToChars tn ++ ' ' ::
        (("IN".data) ++ ' ' :: (T3 ++ ' ' :: V)))))) = true) by
    simp only [List.isPrefixOf, Bool.and_eq_true, beq_iff_eq]
    rintro (h | ⟨h1, _⟩)
    · exact absurd h (by simp)
    · exact hc0s h1.symm)]
  rw [if_neg (show ¬((("$ORIGIN".data).isPrefixOf (c0 :: rstripWs (T0' ++ ' ' ::
      (natToChars tn ++ ' ' :: (("IN".data) ++ ' ' :: (T3 ++ ' ' :: V)))))) = true) by
    simp only [List.isPrefixOf, Bool.and_eq_true, beq_iff_eq]
    rintro ⟨h1, _⟩
    exact hc0d h1.symm)]
  rw [if_neg (show ¬((("$TTL".data).isPrefixOf (c0 :: rstripWs (T0' ++ ' ' ::
      (natToChars tn ++ ' ' :: (("IN".data) ++ ' ' :: (T3 ++ ' ' :: V)))))) = true) by
    simp only [List.isPrefixOf, Bool.and_eq_true, beq_iff_eq]
    rintro ⟨h1, _⟩
    exact hc0d h1.symm)]
  rw [htok']
  rw [if_neg (show ¬((c0 :: T0') :: natToChars tn :: ("IN".data) :: T3 ::
      pySplitWs V).length < 4 by
    simp only [List.length_cons]
    omega)]
  dsimp only
  rw [if_pos (isDigitStr_natToChars tn)]
  dsimp only
  rw [if_pos (show upperStr ("IN".data) = "IN".data by decide)]
  rw [charsToNat_natToChars]

/-! ### Folding the importer over whole line blocks -/

theorem foldlM_processLine_skip (lines : List Str)
    (h : ∀ l ∈ lines, ∀ st : ParseState, processLine st l = .ok st) :
    ∀ st : ParseState, lines.foldlM processLine st = .ok st := by
  induction lines with
  | nil => intro st; rfl
  | cons l ls ih =>
    intro st
    rw [List.foldlM_cons, h l (List.mem_cons_self _ _)]
    exact ih (fun x hx => h x (List.mem_cons_of_mem _ hx)) st

theorem foldlM_processLine_records {α : Type} (g : α → Str) (f : α → DnsRecord)
    (xs : List α)
    (h : ∀ a ∈ xs, ∀ st : ParseState, processLine st (g a) =
      .ok { st with records := st.records ++ [f a] }) :
    ∀ st : ParseState, (xs.map g).foldlM processLine st =
      .ok { st with records := st.records ++ xs.map f } := by
  induction xs with
  | nil =>
    intro st
    simp only [List.map_nil, List.append_nil]
    rfl
  | cons a as ih =>
    intro st
    rw [List.map_cons, List.foldlM_cons, h a (List.mem_cons_self _ _)]
    have hstep := ih (fun x hx => h x (List.mem_cons_of_mem _ hx))
      { st with records := st.records ++ [f a] }
    exact hstep.trans (by rw [List.map_cons, List.append_assoc]; rfl)

/-! ### The importer on each kind of exported line -/

theorem processLine_synthSoa (st : ParseState) (z : Zone) (hzttl : 0 ≤ z.ttl) :
    processLine st (synthSoaLine z) = .ok st := by
  have hshape : synthSoaLine z = ("@".data) ++ ' ' :: (natToChars z.ttl.toNat ++ ' ' ::
      (("IN".data) ++ ' ' :: (("SOA".data) ++ ' ' ::
        (("ns1.".data) ++ z.name ++ (". hostmaster.".data) ++ z.name ++ (". ( ".data) ++
          intToChars z.serial ++ (" 3600 900 604800 300 )".data))))) := by
    rw [synthSoaLine, intToChars_nonneg hzttl]
    simp only [List.append_assoc]
    rfl
  rw [hshape, processLine_record_shape st ("@".data) ("SOA".data) _ z.ttl.toNat
    (by decide) (by decide) (by decide) (by decide) (by decide) (by decide),
    parseRecordTokens_soa]

theorem processLine_renderSoa (st : ParseState) (r : DnsRecord)
    (hn0 : r.name ≠ []) (hnw : ∀ c ∈ r.name, c.isWhitespace = false)
    (hns : r.name.headI ≠ ';') (hnd : r.name.headI ≠ '$') (httl : 0 ≤ r.ttl) :
    processLine st (renderSoaLine r) = .ok st := by
  have hshape : renderSoaLine r = r.name ++ ' ' :: (natToChars r.ttl.toNat ++ ' ' ::
      (("IN".data) ++ ' ' :: (("SOA".data) ++ ' ' :: r.value))) := by
    rw [renderSoaLine, intToChars_nonneg httl]
    simp only [List.append_assoc]
    rfl
  rw [hshape, processLine_record_shape st r.name ("SOA".data) r.value r.ttl.toNat
    hn0 hnw hns hnd (by decide) (by decide), parseRecordTokens_soa]

theorem processLine_renderNs (st : ParseState) (z : Zone) (ns : Str)
    (hzttl : 0 ≤ z.ttl) (hns : canonicalTok ns) :
    processLine st (renderNsLine z ns) =
      .ok { st with records := st.records ++ [nsRecordOf z.ttl ns] } := by
  have hshape : renderNsLine z ns = ("@".data) ++ ' ' :: (natToChars z.ttl.toNat ++ ' ' ::
      (("IN".data) ++ ' ' :: (("NS".data) ++ ' ' :: ns))) := by
    rw [renderNsLine, intToChars_nonneg hzttl]
    simp only [List.append_assoc]
    rfl
  rw [hshape, processLine_record_shape st ("@".data) ("NS".data) ns z.ttl.toNat
    (by decide) (by decide) (by decide) (by decide) (by decide) (by decide),
    parseRecordTokens_plain st _ _ _ _ (by decide) (by decide) (by decide),
    show joinSepStr (" ".data) (pySplitWs ns) = ns from hns,
    Int.toNat_of_nonneg hzttl]
  rfl

theorem processLine_renderRecord (st : ParseState) (r : DnsRecord)
    (hn0 : r.name ≠ []) (hnw : ∀ c ∈ r.name, c.isWhitespace = false)
    (hnsc : r.name.headI ≠ ';') (hnd : r.name.headI ≠ '$') (httl : 0 ≤ r.ttl)
    (ht0 : r.record_type ≠ []) (htw : ∀ c ∈ r.record_type, c.isWhitespace = false)
    (hup : upperStr r.record_type = r.record_type) (hcanon : canonicalTok r.value)
    (hpge : 0 ≤ r.priority.getD 0)
    (hpmx : r.priority ≠ none →
      (r.record_type = "MX".data ∨ r.record_type = "SRV".data))
    (hmxnone : (r.record_type = "MX".data ∨ r.record_type = "SRV".data) →
      r.priority = none →
      pySplitWs r.value ≠ [] ∧ isDigitStr (pySplitWs r.value).headI = false)
    (hsoa : r.record_type ≠ "SOA".data) :
    processLine st (renderRecordLine r) =
      .ok { st with records := st.records ++ [stripId r] } := by
  rcases hp : r.priority with _ | p
  · have hshape : renderRecordLine r = r.name ++ ' ' :: (natToChars r.ttl.toNat ++ ' ' ::
        (("IN".data) ++ ' ' :: (r.record_type ++ ' ' :: r.value))) := by
      simp only [renderRecordLine, hp]
      rw [intToChars_nonneg httl]
      simp only [List.append_assoc]
      rfl
    rw [hshape, processLine_record_shape st r.name r.record_type r.value r.ttl.toNat
      hn0 hnw hnsc hnd ht0 htw]
    by_cases hmx : r.record_type = "MX".data ∨ r.record_type = "SRV".data
    · obtain ⟨hvne, hvhead⟩ := hmxnone hmx hp
      rw [parseRecordTokens_mx_noprio st _ _ _ _ hup hmx (pySplitWs_tokens r.value)
        hvne hvhead,
        show joinSepStr (" ".data) (pySplitWs r.value) = r.value from hcanon,
        Int.toNat_of_nonneg httl]
      simp [stripId, hp]
    · rw [parseRecordTokens_plain st _ _ _ _ hup hsoa hmx,
        show joinSepStr (" ".data) (pySplitWs r.value) = r.value from hcanon,
        Int.toNat_of_nonneg httl]
      simp [stripId, hp]
  · have hmx : r.record_type = "MX".data ∨ r.record_type = "SRV".data :=
      hpmx (by simp [hp])
    have hpge' : (0:Int) ≤ p := by simpa [hp] using hpge
    have hshape : renderRecordLine r = r.name ++ ' ' :: (natToChars r.ttl.toNat ++ ' ' ::
        (("IN".data) ++ ' ' :: (r.record_type ++ ' ' ::
          (natToChars p.toNat ++ ' ' :: r.value)))) := by
      simp only [renderRecordLine, hp]
      rw [intToChars_nonneg httl, intToChars_nonneg hpge']
      simp only [List.append_assoc]
      rfl
    rw [hshape, processLine_record_shape st r.name r.record_type _ r.ttl.toNat
      hn0 hnw hnsc hnd ht0 htw,
      pySplitWs_token_cons _ _ (natToChars_decomp p.toNat).1 (natToChars_not_ws p.toNat),
      parseRecordTokens_mx_prio st _ _ _ p.toNat (pySplitWs r.value) hup hmx
        (pySplitWs_tokens r.value),
      show joinSepStr (" ".data) (pySplitWs r.value) = r.value from hcanon,
      Int.toNat_of_nonneg httl, Int.toNat_of_nonneg hpge']
    simp [stripId, hp]

/-! ### No exported line contains a newline -/

theorem no_nl_append {a b : Str} (ha : '\n' ∉ a) (hb : '\n' ∉ b) : '\n' ∉ a ++ b :=
  fun h => (List.mem_append.mp h).elim ha hb

theorem exportLines_no_nl (z : Zone) (hz : exportExpressible z) :
    ∀ l ∈ exportLines z, '\n' ∉ l := by
  obtain ⟨hzttl, hzname, hzns, hzrec⟩ := hz
  have hname : '\n' ∉ z.name := no_nl_of_noWs hzname
  intro l hl
  rw [exportLines] at hl
  simp only [List.mem_append] at hl
  rcases hl with ((((hl | hl) | hl) | hl) | hl) | hl
  · rw [exportHeaderLines] at hl
    simp only [List.mem_cons, List.not_mem_nil, or_false] at hl
    rcases hl with rfl | rfl | rfl | rfl | rfl
    · exact no_nl_append (by decide) hname
    · decide
    · exact no_nl_append (no_nl_append (by decide) hname) (by decide)
    · exact no_nl_append (by decide) (no_nl_of_noWs (intToChars_not_ws _))
    · simp
  · rw [exportSoaLines] at hl
    split at hl
    · rw [List.mem_singleton] at hl
      subst hl
      rw [synthSoaLine]
      intro hmem
      simp only [List.mem_append] at hmem
      rcases hmem with ((((((((h | h) | h) | h) | h) | h) | h) | h) | h)
      · exact absurd h (by decide)
      · exact no_nl_of_noWs (intToChars_not_ws _) h
      · exact absurd h (by decide)
      · exact hname h
      · exact absurd h (by decide)
      · exact hname h
      · exact absurd h (by decide)
      · exact no_nl_of_noWs (intToChars_not_ws _) h
      · exact absurd h (by decide)
    · rw [List.mem_map] at hl
      obtain ⟨r, hrmem, rfl⟩ := hl
      have hrf := List.mem_filter.mp hrmem
      have hsoaT : r.record_type = "SOA".data := by simpa using hrf.2
      obtain ⟨⟨hn0, hnw⟩, _, _, _, hvalnl⟩ := (hzrec r hrf.1).1 hsoaT
      rw [renderSoaLine]
      intro hmem
      simp only [List.mem_append] at hmem
      rcases hmem with (((h | h) | h) | h) | h
      · exact no_nl_of_noWs hnw h
      · exact absurd h (by decide)
      · exact no_nl_of_noWs (intToChars_not_ws _) h
      · exact absurd h (by decide)
      · exact hvalnl h
  · rw [List.mem_singleton] at hl
    subst hl
    simp
  · rw [exportNsLines, List.mem_map] at hl
    obtain ⟨ns, hnsmem, rfl⟩ := hl
    rw [renderNsLine]
    intro hmem
    simp only [List.mem_append] at hmem
    rcases hmem with ((h | h) | h) | h
    · exact absurd h (by decide)
    · exact no_nl_of_noWs (intToChars_not_ws _) h
    · exact absurd h (by decide)
    · exact canonicalTok_no_nl (hzns ns hnsmem) h
  · rw [List.mem_singleton] at hl
    subst hl
    simp
  · rw [exportOtherLines, List.mem_map] at hl
    obtain ⟨r, hrmem, rfl⟩ := hl
    rw [sortRecords, List.mem_insertionSort] at hrmem
    have hrf := List.mem_filter.mp hrmem
    have hpred : ¬(r.record_type = "SOA".data ∨ r.record_type = "NS".data) := by
      simpa using hrf.2
    obtain ⟨⟨hn0, hnw⟩, _, _, _, ⟨ht0, htw⟩, hup, hcanon, hpge, hpmx, hmxn⟩ :=
      (hzrec r hrf.1).2 (fun hq => hpred (Or.inl hq)) (fun hq => hpred (Or.inr hq))
    rcases hp : r.priority with _ | p
    · simp only [renderRecordLine, hp]
      intro hmem
      simp only [List.mem_append] at hmem
      rcases hmem with ((((((h | h) | h) | h) | h) | h) | h)
      · exact no_nl_of_noWs hnw h
      · exact absurd h (by decide)
      · exact no_nl_of_noWs (intToChars_not_ws _) h
      · exact absurd h (by decide)
      · exact no_nl_of_noWs htw h
      · exact absurd h (by decide)
      · exact canonicalTok_no_nl hcanon h
    · simp only [renderRecordLine, hp]
      intro hmem
      simp only [List.mem_append] at hmem
      rcases hmem with ((((((((h | h) | h) | h) | h) | h) | h) | h) | h)
      · exact no_nl_of_noWs hnw h
      · exact absurd h (by decide)
      · exact no_nl_of_noWs (intToChars_not_ws _) h
      · exact absurd h (by decide)
      · exact no_nl_of_noWs htw h
      · exact absurd h (by decide)
      · exact no_nl_of_noWs (intToChars_not_ws _) h
      · exact absurd h (by decide)
      · exact canonicalTok_no_nl hcanon h

/-! ### The round-trip theorem -/

theorem foldlM_cons_ok {st st' : ParseState} {l : Str} {ls : List Str}
    {res : Except Str ParseState}
    (h1 : processLine st l = .ok st') (h2 : ls.foldlM processLine st' = res) :
    (l :: ls).foldlM processLine st = res := by
  rw [List.foldlM_cons, h1]
  exact h2

theorem foldlM_append_ok {st st' : ParseState} {l ls : List Str}
    {res : Except Str ParseState}
    (h1 : l.foldlM processLine st = .ok st') (h2 : ls.foldlM processLine st' = res) :
    (l ++ ls).foldlM processLine st = res := by
  rw [List.foldlM_append, h1]
  exact h2

/-- Claim C1 (amended): for an export-expressible zone — non-negative
default ttl, whitespace-free name, whitespace-canonical nameserver
entries, and records whose fields the grammar can express — importing the
exported text succeeds and reconstructs exactly the zone's non-SOA,
non-NS records (with their type, name, value, ttl and priority, in the
exporter's (type, name)-sorted order), preceded by one NS record
(name `@`, the zone's ttl) for each entry of `zone.nameservers`.  The
zone's own NS records are dropped and the nameserver list is exported in
their place, so NS records do not round-trip. -/
theorem import_export_round_trip (z : Zone) (stem : Str) (serial0 : Int)
    (h : exportExpressible z) :
    (import_zone_file stem serial0 (export_bind_format z)) =
      .ok ⟨rstripDots (z.name ++ (".".data)), z.ttl, serial0, defaultNameservers,
        z.nameservers.map (nsRecordOf z.ttl) ++
          (sortRecords (otherRecords z)).map stripId, none⟩ := by
  obtain ⟨hzttl, hzname, hzns, hzrec⟩ := h
  have hsplit : splitOnChar '\n' (export_bind_format z) = exportLines z ++ [[]] := by
    rw [export_bind_format]
    exact splitOnChar_joinLines (exportLines z)
      (by rw [exportLines, exportHeaderLines]; simp)
      (exportLines_no_nl z ⟨hzttl, hzname, hzns, hzrec⟩)
  have hhdr : (exportHeaderLines z).foldlM processLine ⟨none, 3600, []⟩ =
      .ok ⟨some (rstripDots (z.name ++ (".".data))), z.ttl, []⟩ := by
    rw [exportHeaderLines]
    apply foldlM_cons_ok
      (show processLine _ (("; Zone file for ".data) ++ z.name) = .ok _ from
        processLine_comment _ ((" Zone file for ".data) ++ z.name))
    apply foldlM_cons_ok
      (show processLine _ ("; Generated by blackroad-zone-manager".data) = .ok _ from
        processLine_comment _ (" Generated by blackroad-zone-manager".data))
    apply foldlM_cons_ok (processLine_origin _ z.name hzname)
    apply foldlM_cons_ok (processLine_ttl _ z.ttl)
    apply foldlM_cons_ok (processLine_blank _)
    rfl
  have hsoa_skip : ∀ l ∈ exportSoaLines z, ∀ st, processLine st l = .ok st := by
    intro l hl st
    rw [exportSoaLines] at hl
    split at hl
    · rw [List.mem_singleton] at hl
      subst hl
      exact processLine_synthSoa st z hzttl
    · rw [List.mem_map] at hl
      obtain ⟨r, hrmem, rfl⟩ := hl
      have hrf := List.mem_filter.mp hrmem
      have hsoaT : r.record_type = "SOA".data := by simpa using hrf.2
      obtain ⟨⟨hn0, hnw⟩, hh1, hh2, httl, _⟩ := (hzrec r hrf.1).1 hsoaT
      exact processLine_renderSoa st r hn0 hnw hh1 hh2 httl
  have hns_fold := foldlM_processLine_records (renderNsLine z) (nsRecordOf z.ttl)
    z.nameservers
    (fun ns hns st => processLine_renderNs st z ns hzttl (hzns ns hns))
  have hoth_step : ∀ r ∈ sortRecords (otherRecords z), ∀ st,
      processLine st (renderRecordLine r) =
        .ok { st with records := st.records ++ [stripId r] } := by
    intro r hrmem st
    rw [sortRecords, List.mem_insertionSort] at hrmem
    have hrf := List.mem_filter.mp hrmem
    have hpred : ¬(r.record_type = "SOA".data ∨ r.record_type = "NS".data) := by
      simpa using hrf.2
    obtain ⟨⟨hn0, hnw⟩, hh1, hh2, httl, ⟨ht0, htw⟩, hup, hcanon, hpge, hpmx, hmxn⟩ :=
      (hzrec r hrf.1).2 (fun hq => hpred (Or.inl hq)) (fun hq => hpred (Or.inr hq))
    exact processLine_renderRecord st r hn0 hnw hh1 hh2 httl ht0 htw hup hcanon
      hpge hpmx hmxn (fun hq => hpred (Or.inl hq))
  have hoth_fold := foldlM_processLine_records renderRecordLine stripId
    (sortRecords (otherRecords z)) hoth_step
  have hfold : (exportLines z ++ [[]]).foldlM processLine ⟨none, 3600, []⟩ =
      .ok ⟨some (rstripDots (z.name ++ (".".data))), z.ttl,
        z.nameservers.map (nsRecordOf z.ttl) ++
          (sortRecords (otherRecords z)).map stripId⟩ := by
    rw [exportLines]
    simp only [List.append_assoc]
    apply foldlM_append_ok hhdr
    apply foldlM_append_ok (foldlM_processLine_skip _ hsoa_skip _)
    apply foldlM_cons_ok (processLine_blank _)
    apply foldlM_append_ok (hns_fold _)
    apply foldlM_cons_ok (processLine_blank _)
    apply foldlM_append_ok (hoth_fold _)
    apply foldlM_cons_ok (processLine_blank _)
    rfl
  rw [import_zone_file, hsplit, hfold]

/-- Claim C1 counterexample: a zone whose only record is an NS record.  The
NS record is not an SOA record, yet importing the export does not
reconstruct it: the imported record set consists exactly of NS records
derived from `zone.nameservers` (the placeholder hosts), none of which
carries the original record's value. -/
theorem import_export_ns_counterexample :
    (import_zone_file ("f".data) 0 (export_bind_format zoneNs)) =
      .ok ⟨"example.com".data, 3600, 0, defaultNameservers,
        [⟨"NS".data, "@".data, "ns1.blackroad.io.".data, 3600, none, none⟩,
         ⟨"NS".data, "@".data, "ns2.blackroad.io.".data, 3600, none, none⟩], none⟩ ∧
      (⟨"NS".data, "@".data, "ns.other.example.".data, 3600, none, none⟩ : DnsRecord) ∈
        zoneNs.records ∧
      ("NS".data : Str) ≠ "SOA".data ∧
      ∀ r ∈ [(⟨"NS".data, "@".data, "ns1.blackroad.io.".data, 3600, none, none⟩ : DnsRecord),
        ⟨"NS".data, "@".data, "ns2.blackroad.io.".data, 3600, none, none⟩],
        r.value ≠ "ns.other.example.".data := by decide

/-- Claim C1 witness: the amended round trip evaluated on a concrete
expressible zone holding one A record. -/
theorem import_export_round_trip_witness :
    (import_zone_file ("f".data) 0 (export_bind_format zoneA)) =
      .ok ⟨rstripDots (zoneA.name ++ (".".data)), zoneA.ttl, 0, defaultNameservers,
        zoneA.nameservers.map (nsRecordOf zoneA.ttl) ++
          (sortRecords (otherRecords zoneA)).map stripId, none⟩ :=
  (import_export_round_trip zoneA ("f".data) 0 (by decide))

example : pySplitWs ("  mail   10  smtp.example. ".data) =
    ["mail".data, "10".data, "smtp.example.".data] := by decide

example : pyStrip ("  @ IN A 1.2.3.4  ".data) = ("@ IN A 1.2.3.4".data) := by decide

example : splitOnChar '\n' ("a\nbc\n".data) = ["a".data, "bc".data, []] := by decide

example : natToChars 3600 = "3600".data := by decide

example : intToChars (-42) = "-42".data := by decide

example : pyIntChars ("3600".data) = .ok 3600 := by decide

example : pyIntChars ("oops".data) = .error ("ValueError".data) := by decide

example : upperStr ("mx".data) = "MX".data := by decide

example : rstripDots ("example.com.".data) = "example.com".data := by decide
